import Mathlib

/-!
# Verification of the `marker` markdown link checker

Shallow embedding of the repository's three source files:

* `src/main.rs`   — the pipeline: directory walk, per-file event loop,
  `try_reference`, `check_link`, `check_url`, `check_path`, exit codes;
* `src/document.rs` — the `Document` scanner over a markdown token stream
  (code-block tracking, last-text tracking, link/broken-reference events,
  line computation from newline offsets);
* `src/error.rs`  — error taxonomy (mirrored by the `LinkError` type below).

External collaborators (the `url` parser, the `hyper` HTTP client, the
filesystem, the directory walker and the `pulldown_cmark` tokenizer) are
modelled as explicit function parameters or input lists, as the spec directs.
-/

namespace Marker

/-- A parsed URL, as the `url` crate's `Url` value is used by this program:
a scheme, the serialized remainder up to the fragment, and an optional
fragment.  Equality (derived) compares all three components, matching the
`url` crate's `Eq` on the full serialization — the fragment included. -/
structure Url where
  scheme : String
  base : String
  fragment : Option String
deriving DecidableEq, Repr

/-- `url::ParseError` as `check_link` distinguishes it: the
`RelativeUrlWithoutBase` variant versus every other parse failure
(collapsed into `other` with an identifying message). -/
inductive ParseError where
  | relativeUrlWithoutBase
  | other (msg : String)
deriving DecidableEq, Repr

/-- The `LinkError` enum of `main.rs` (spelling `PathNonExistant` as in the
source).  HTTP status codes are modelled as their numeric value. -/
inductive LinkError where
  | pathAbsolute
  | pathNonExistant
  | httpStatus (status : Nat)
  | httpError (msg : String)
  | urlMalformed (err : ParseError)
deriving DecidableEq, Repr

/-- Outcome of one HTTP request issued by the `hyper` client: a response
carrying a status code, or a transport-level failure. -/
inductive NetResult where
  | response (status : Nat)
  | failure (msg : String)
deriving DecidableEq, Repr

/-- The HTTP collaborator: what `client.head(url).send()` and
`client.get(url).send()` return for each URL. -/
structure Net where
  head : Url → NetResult
  get : Url → NetResult

/-- `StatusCode::Ok` -/
def statusOk : Nat := 200

/-- `StatusCode::MethodNotAllowed` -/
def statusMethodNotAllowed : Nat := 405

/-- The `links: HashMap<Url, StatusCode>` cache, modelled as an association
list with (at most) one entry per key. -/
abbrev LinksMap := List (Url × Nat)

/-- `HashMap::remove`: the removed value (if the key was present) together
with the map without that entry. -/
def mapRemove : LinksMap → Url → Option Nat × LinksMap
  | [], _ => (none, [])
  | (k, v) :: rest, u =>
    if k = u then (some v, rest)
    else
      let (r, m) := mapRemove rest u
      (r, (k, v) :: m)

/-- `HashMap::insert` (the key is never present when `check_url` inserts,
since it was just removed; prepending keeps keys unique). -/
def mapInsert (m : LinksMap) (u : Url) (v : Nat) : LinksMap := (u, v) :: m

/-- The request sequence of `check_url`'s cache-miss path:
`client.head(url).send().and_then(|resp| if resp.status == MethodNotAllowed
\x7b client.get(url).send() \x7d else \x7b Ok(resp) \x7d)`.
Also returns the number of HTTP round trips issued (1, or 2 when the GET
retry fires). -/
def sendRequest (net : Net) (url : Url) : NetResult × Nat :=
  match net.head url with
  | .response s =>
    if s = statusMethodNotAllowed then (net.get url, 2) else (.response s, 1)
  | .failure e => (.failure e, 1)

instance {ε α : Type} [DecidableEq ε] [DecidableEq α] :
    DecidableEq (Except ε α) := fun a b =>
  match a, b with
  | .ok x, .ok y =>
    if h : x = y then .isTrue (by rw [h]) else .isFalse (by simp [h])
  | .error x, .error y =>
    if h : x = y then .isTrue (by rw [h]) else .isFalse (by simp [h])
  | .ok _, .error _ => .isFalse (by simp)
  | .error _, .ok _ => .isFalse (by simp)

/-- Result of `check_url`: the `Result<(), LinkError>`, the updated cache,
and the number of HTTP round trips this call issued. -/
structure UrlCheck where
  result : Except LinkError Unit
  links : LinksMap
  netCalls : Nat
deriving DecidableEq, Repr

/-- `check_url` from `main.rs`: skip non-HTTP(S) schemes; otherwise take the
cached status if present (`links.remove`), else send the HEAD (with the
conditional GET retry) — a transport failure returns `HttpError`
immediately, WITHOUT inserting into the cache; a status is re-inserted into
the cache and mapped to success (200) or `HttpStatus`. -/
def check_url (net : Net) (links : LinksMap) (url : Url) : UrlCheck :=
  if url.scheme ≠ "http" ∧ url.scheme ≠ "https" then
    ⟨.ok (), links, 0⟩
  else
    match mapRemove links url with
    | (some status, links) =>
      ⟨if status = statusOk then .ok () else .error (.httpStatus status),
        mapInsert links url status, 0⟩
    | (none, links) =>
      match sendRequest net url with
      | (.failure err, calls) => ⟨.error (.httpError err), links, calls⟩
      | (.response status, calls) =>
        ⟨if status = statusOk then .ok () else .error (.httpStatus status),
          mapInsert links url status, calls⟩

/-- `path.split('#').next()`: everything before the first `#` (the whole
string when there is no `#`). -/
def stripFragment (s : String) : String :=
  String.mk (s.data.takeWhile (fun c => c ≠ '#'))

/-- `Path::is_absolute` (Unix): the path begins with `/`. -/
def isAbsolute (p : String) : Bool := p.data.head? == some '/'

/-- `Path::join` for the relative operands `check_path` joins (a relative
`p` is appended to `dir` with a separator; joining onto an empty directory
yields `p` itself, as `Path::new("").join(p)` does). -/
def pathJoin (dir p : String) : String :=
  if dir = "" then p else dir ++ "/" ++ p

/-- `check_path` from `main.rs`, over an existence oracle `fs` for the
filesystem: strip from the first `#`, reject absolute paths with
`PathAbsolute`, otherwise resolve against the owning file's directory and
require existence. -/
def check_path (fs : String → Bool) (directory : String) (path : String) :
    Except LinkError Unit :=
  let p := stripFragment path
  if isAbsolute p then .error .pathAbsolute
  else if !fs (pathJoin directory p) then .error .pathNonExistant
  else .ok ()

/-- `check_link` from `main.rs`, with URL parsing as an oracle `parse`
standing for `Url::parse`: a parsed URL is checked (or accepted outright
under `skip_http`); the `RelativeUrlWithoutBase` failure goes to
`check_path`; any other failure is `UrlMalformed`.  Returns the result, the
updated URL cache and the number of HTTP round trips issued. -/
def check_link (parse : String → Except ParseError Url) (net : Net)
    (fs : String → Bool) (skipHttp : Bool) (directory : String)
    (links : LinksMap) (dest : String) :
    Except LinkError Unit × LinksMap × Nat :=
  match parse dest, skipHttp with
  | .ok url, false =>
    let r := check_url net links url
    (r.result, r.links, r.netCalls)
  | .ok _, true => (.ok (), links, 0)
  | .error .relativeUrlWithoutBase, _ => (check_path fs directory dest, links, 0)
  | .error err, _ => (.error (.urlMalformed err), links, 0)

/-! ## The `Document` scanner of `src/document.rs`

The `pulldown_cmark` tokenizer is an external collaborator; its output for a
document is modelled as a list of `(PEvent, offset)` pairs, where `offset`
is the start of the construct's source span (the only part of the
`Range<usize>` the scanner reads). -/

/-- `pulldown_cmark::LinkType`, as `Document::next` distinguishes the
variants (the remaining variants — autolink, email — fall into the
scanner's catch-all arm). -/
inductive LinkType where
  | inline
  | reference
  | collapsed
  | shortcut
  | referenceUnknown
  | collapsedUnknown
  | shortcutUnknown
  | autolink
  | email
deriving DecidableEq, Repr

/-- The tags `Document::next` matches on: `Tag::Link(link_type, target,
text)`, `Tag::CodeBlock`, and everything else. -/
inductive PTag where
  | link (lt : LinkType) (target : String) (title : String)
  | codeBlock
  | otherTag
deriving DecidableEq, Repr

/-- The parser events `Document::next` matches on: `Event::Text`,
`Event::Start(tag)`, `Event::End(tag)`, and everything else. -/
inductive PEvent where
  | text (s : String)
  | startTag (t : PTag)
  | endTag (t : PTag)
  | otherEvent
deriving DecidableEq, Repr

/-- `document::Event`: a resolvable link, or the broken-reference error. -/
inductive DocEvent where
  | link (target text : String)
  | referenceBroken (target text : String)
deriving DecidableEq, Repr

/-- `document::LocatedEvent`. -/
structure LocatedEvent where
  event : DocEvent
  line : Nat
deriving DecidableEq, Repr

/-- `Document::new_located_event`'s line computation, parametrised over the
line function so that the source's `take_while` form and the spec's
"count strictly smaller offsets" form can be compared. -/
def lineOf (newlines : List Nat) (offset : Nat) : Nat :=
  (newlines.takeWhile (fun i => i < offset)).length + 1

/-- Driving `Document::next` to exhaustion, with an explicit line function
`lineFn` (instantiated below with `lineOf newlines`).  Returns the list of
`LocatedEvent`s yielded before exhaustion or panic, and whether the
iteration panicked (the `self.last_text.clone().expect("some last text")`
in the resolved-link arm, with `last_text` still `None`). -/
def docRunWith (lineFn : Nat → Nat) :
    List (PEvent × Nat) → Bool → Option String → List LocatedEvent × Bool
  | [], _, _ => ([], false)
  | (ev, pos) :: rest, codeBlock, lastText =>
    match ev with
    | .text s =>
      if !codeBlock then docRunWith lineFn rest codeBlock (some s)
      else docRunWith lineFn rest codeBlock lastText
    | .endTag (.link lt target title) =>
      match lt with
      | .inline | .reference | .collapsed | .shortcut =>
        match lastText with
        | some t =>
          (⟨.link target t, lineFn pos⟩ ::
              (docRunWith lineFn rest codeBlock lastText).1,
            (docRunWith lineFn rest codeBlock lastText).2)
        | none => ([], true)
      | .referenceUnknown | .collapsedUnknown | .shortcutUnknown =>
        (⟨.referenceBroken target title, lineFn pos⟩ ::
            (docRunWith lineFn rest codeBlock lastText).1,
          (docRunWith lineFn rest codeBlock lastText).2)
      | _ => docRunWith lineFn rest codeBlock lastText
    | .startTag .codeBlock => docRunWith lineFn rest true lastText
    | .endTag .codeBlock => docRunWith lineFn rest false lastText
    | _ => docRunWith lineFn rest codeBlock lastText

/-- The scanner of `document.rs`, run over a token stream with the newline
offsets recorded by `Document::new`: initial state has `code_block = false`
and `last_text = None`; each yielded event is located with
`newlines.iter().take_while(|&&i| i < span.start).count() + 1`. -/
def docRun (newlines : List Nat) (toks : List (PEvent × Nat)) :
    List LocatedEvent × Bool :=
  docRunWith (lineOf newlines) toks false none

/-- The line computation as the spec words it: the count of recorded
newline offsets strictly less than the span-start offset, plus one. -/
def lineOfSpec (newlines : List Nat) (offset : Nat) : Nat :=
  (newlines.countP (fun i => decide (i < offset))) + 1

/-- The scanner with the spec's wording of the line computation, for
comparison with `docRun`. -/
def docRunSpecLine (newlines : List Nat) (toks : List (PEvent × Nat)) :
    List LocatedEvent × Bool :=
  docRunWith (lineOfSpec newlines) toks false none

/-- `contents.match_indices('\n')` of `Document::new` (and of `main`):
the offsets of every newline in the document text. -/
def newlineOffsets (contents : List Char) : List Nat :=
  (List.range contents.length).filter (fun i => contents.get? i = some '\n')

/-- Is this token an `Event::End(Tag::Link(..))`? -/
def isLinkEnd : PEvent × Nat → Bool
  | (.endTag (.link _ _ _), _) => true
  | _ => false

/-! ## The pipeline of `src/main.rs`

`main.rs` runs its own event loop over the (older) `pulldown_cmark` event
stream: `Event::Text`, `Event::End(Tag::Link(dest, _))`,
`Event::Start/End(Tag::Code | Tag::CodeBlock)`.  The stream for each file is
an input (the tokenizer is external), each event paired with the value of
`parser.get_offset()` observed right after pulling it. -/

/-- The tags `main`'s loop matches on. -/
inductive MTag where
  | link (dest : String)
  | code
  | codeBlock
  | otherTag
deriving DecidableEq, Repr

/-- The parser events `main`'s loop matches on. -/
inductive MEvent where
  | text (s : String)
  | startTag (t : MTag)
  | endTag (t : MTag)
  | otherEvent
deriving DecidableEq, Repr

/-- The mutable scanning fields of `State` in `main.rs` (`skip_http` and
`directory` are passed separately, as they never change per file). -/
structure MState where
  codeBlock : Bool
  lastText : String
deriving DecidableEq, Repr

/-- `try_reference` from `main.rs`: outside code blocks, a text token whose
first character is `[` and whose last character is `]` is flagged as a
reference, stripped of the brackets. -/
def try_reference (st : MState) (text : String) : Option String :=
  if !st.codeBlock && text.data.head? == some '[' && text.data.getLast? == some ']'
  then some (String.mk (text.data.drop 1).dropLast)
  else none

/-- Rendering of a `hyper::status::StatusCode` by its `Display`
implementation, abstracted to the numeral (the pipeline only ever
concatenates it into a report line). -/
def displayStatus (s : Nat) : String := toString s

/-- Rendering of a `url::ParseError` by its `Display` implementation. -/
def displayParseError : ParseError → String
  | .relativeUrlWithoutBase => "relative URL without a base"
  | .other msg => msg

/-- The report line printed by `print_issue!` for each `LinkError` arm of
the `Event::End(Tag::Link(..))` match in `main`. -/
def printIssueLine (e : LinkError) (lastText dest path : String) (line : Nat) :
    String :=
  let loc := path ++ ":" ++ toString line
  match e with
  | .pathAbsolute =>
    "Found absolute path    (" ++ lastText ++ " -> " ++ dest ++ ") at " ++ loc
  | .pathNonExistant =>
    "Found broken path      (" ++ lastText ++ " -> " ++ dest ++ ") at " ++ loc
  | .httpStatus s =>
    "Found broken url       (" ++ lastText ++ " -> " ++ dest ++ ") at " ++ loc
      ++ " : " ++ displayStatus s
  | .httpError msg =>
    "HTTP failure           (" ++ lastText ++ " -> " ++ dest ++ ") at " ++ loc
      ++ " : " ++ msg
  | .urlMalformed err =>
    "Found malformed URL    (" ++ lastText ++ " -> " ++ dest ++ ") at " ++ loc
      ++ " : " ++ displayParseError err

/-- The per-file event loop of `main`: threads the URL cache, the scanning
state, the `found_issue` flag and the printed report through the event
stream.  Each event's line is computed from the recorded newline offsets
and the parser offset attached to the event. -/
def processEvents (parse : String → Except ParseError Url) (net : Net)
    (fs : String → Bool) (skipHttp : Bool)
    (path directory : String) (newlines : List Nat) :
    List (MEvent × Nat) → LinksMap → MState → Bool → List String →
    LinksMap × Bool × List String
  | [], links, _, found, report => (links, found, report)
  | (ev, off) :: rest, links, st, found, report =>
    let line := (newlines.takeWhile (fun i => i < off)).length + 1
    match ev with
    | .text s =>
      let st := { st with lastText := s }
      match try_reference st s with
      | some r =>
        processEvents parse net fs skipHttp path directory newlines rest links st
          true
          (report ++
            ["Found broken reference (" ++ r ++ ") in " ++ path ++ ":"
              ++ toString line])
      | none =>
        processEvents parse net fs skipHttp path directory newlines rest links st
          found report
    | .endTag (.link dest) =>
      match check_link parse net fs skipHttp directory links dest with
      | (.ok _, links, _) =>
        processEvents parse net fs skipHttp path directory newlines rest links st
          found report
      | (.error e, links, _) =>
        processEvents parse net fs skipHttp path directory newlines rest links st
          true (report ++ [printIssueLine e st.lastText dest path line])
    | .startTag .code =>
      processEvents parse net fs skipHttp path directory newlines rest links
        { st with codeBlock := true } found report
    | .startTag .codeBlock =>
      processEvents parse net fs skipHttp path directory newlines rest links
        { st with codeBlock := true } found report
    | .endTag .code =>
      processEvents parse net fs skipHttp path directory newlines rest links
        { st with codeBlock := false } found report
    | .endTag .codeBlock =>
      processEvents parse net fs skipHttp path directory newlines rest links
        { st with codeBlock := false } found report
    | _ =>
      processEvents parse net fs skipHttp path directory newlines rest links st
        found report

/-- One markdown file as the pipeline sees it: its text (for the newline
index) and the external parser's event stream over that text. -/
structure MFile where
  contents : List Char
  events : List (MEvent × Nat)

/-- One entry produced by the directory walk: whether it passed the
`is_file() && extension == "md"` filter, its path, and the outcome of
opening and reading it (consulted only for `.md` files). -/
structure DirEntry where
  isMd : Bool
  path : String
  readResult : Except String MFile

/-- The observable outcome of `main`: an immediate `fail!` (exit code 2
with a message on stderr), or a completed run with an exit code and the
report printed to stdout. -/
inductive RunResult where
  | fatal (code : Nat) (msg : String)
  | done (code : Nat) (report : List String)
deriving DecidableEq, Repr

/-- `entry.path().parent().expect("non-root path")`: the portion of the
path before its last component. -/
def parentDir (p : String) : String :=
  let pre := ((p.data.reverse.dropWhile (fun c => c ≠ '/')).drop 1).reverse
  if pre.isEmpty && p.data.contains '/' then "/" else String.mk pre

/-- The walk-and-scan loop of `main`: a walk error or a failed file read is
immediately fatal with exit code 2 (`fail!`); each `.md` file's events are
scanned with a fresh `State` (`code_block = false`, `last_text` empty)
while the URL cache, the `found_issue` flag and the report accumulate
across files. -/
def mainLoop (parse : String → Except ParseError Url) (net : Net)
    (fs : String → Bool) (skipHttp : Bool) :
    List (Except String DirEntry) → LinksMap → Bool → List String → RunResult
  | [], _, found, report => .done (if found then 1 else 0) report
  | .error e :: _, _, _, _ => .fatal 2 ("Failed to walk directory: " ++ e)
  | .ok entry :: rest, links, found, report =>
    if entry.isMd then
      match entry.readResult with
      | .error e =>
        .fatal 2 ("Failed to read file (" ++ entry.path ++ "): " ++ e)
      | .ok file =>
        let r := processEvents parse net fs skipHttp entry.path
          (parentDir entry.path) (newlineOffsets file.contents) file.events
          links ⟨false, ""⟩ found report
        mainLoop parse net fs skipHttp rest r.1 r.2.1 r.2.2
    else mainLoop parse net fs skipHttp rest links found report

/-- `main` from `main.rs`, over its external collaborators: URL parsing,
the HTTP client, the filesystem, the `--skip-http` flag, and the directory
walk's entries.  `found_issue` starts false, the report empty; exit code 1
is taken iff an issue was found, 0 otherwise. -/
def runMain (parse : String → Except ParseError Url) (net : Net)
    (fs : String → Bool) (skipHttp : Bool)
    (walk : List (Except String DirEntry)) : RunResult :=
  mainLoop parse net fs skipHttp walk [] false []

/-! ## Concrete collaborators used by counterexamples and witnesses -/

/-- `http://x/a#1` as the `url` crate parses it. -/
def urlFrag1 : Url := ⟨"http", "//x/a", some "1"⟩

/-- `http://x/a#2` as the `url` crate parses it. -/
def urlFrag2 : Url := ⟨"http", "//x/a", some "2"⟩

/-- An HTTP collaborator that answers every request with status 404. -/
def net404 : Net := ⟨fun _ => .response 404, fun _ => .response 404⟩

/-- An HTTP collaborator whose every request fails at the transport level. -/
def netDown : Net := ⟨fun _ => .failure "connection timed out",
  fun _ => .failure "connection timed out"⟩

/-- The path validator as claim C3 words it, for comparison with the
source's `check_path`: with `allow_absolute` set, an absolute path is
re-rooted at the project root (its leading `/` dropped, then joined with
the root) and checked for existence there. -/
def check_path_claim (fs : String → Bool) (root directory : String)
    (allowAbsolute : Bool) (path : String) : Except LinkError Unit :=
  let p := stripFragment path
  if isAbsolute p then
    if allowAbsolute then
      if fs (pathJoin root (String.mk (p.data.drop 1))) then .ok ()
      else .error .pathNonExistant
    else .error .pathAbsolute
  else if !fs (pathJoin directory p) then .error .pathNonExistant
  else .ok ()

/-- A filesystem on which exactly `root/a.md` and `d/a.md` exist. -/
def fsTwoFiles : String → Bool :=
  fun s => s == "root/a.md" || s == "d/a.md"

/-- A stand-in for `Url::parse` on the handful of targets the witnesses
use: one absolute URL, one relative path, one malformed target. -/
def parseStub : String → Except ParseError Url
  | "http://x/a#1" => .ok urlFrag1
  | "./a.md" => .error .relativeUrlWithoutBase
  | other => .error (.other ("invalid input: " ++ other))

/-- Modelled from the spec: the external `pulldown_cmark` tokenizer's
output (with task lists enabled via `Options::all()`) on the task-list
document `"- [ ] Item 1\n- [ ] Item 2"` — list, item, task-list-marker and
text tokens, and in particular no link tokens of any kind, because a
conformant tokenizer classifies `- [ ]` as a task-list marker rather than a
reference-style link. -/
def tasklistTokens : List (PEvent × Nat) :=
  [(.startTag .otherTag, 0), (.startTag .otherTag, 0), (.otherEvent, 2),
   (.text "Item 1", 6), (.endTag .otherTag, 0),
   (.startTag .otherTag, 13), (.otherEvent, 15), (.text "Item 2", 19),
   (.endTag .otherTag, 13), (.endTag .otherTag, 0)]

/-- Modelled from the spec: the external tokenizer's output on
`"This is a [broken reference]."` under the broken-link callback of
`Document::new` — the unresolved shortcut reference is emitted as a link of
kind `ShortcutUnknown` whose destination and title are the callback's
`(String::new(), label)`. -/
def brokenRefTokens : List (PEvent × Nat) :=
  [(.startTag .otherTag, 0), (.text "This is a ", 0),
   (.startTag (.link .shortcutUnknown "" "broken reference"), 10),
   (.text "broken reference", 11),
   (.endTag (.link .shortcutUnknown "" "broken reference"), 10),
   (.text ".", 28), (.endTag .otherTag, 0)]

/-- Modelled from the spec: the external tokenizer's output on
`"[](target)"` — an inline link with empty link text, so no `Text` token is
ever produced before the link closes. -/
def emptyLinkTokens : List (PEvent × Nat) :=
  [(.startTag .otherTag, 0),
   (.startTag (.link .inline "target" ""), 0),
   (.endTag (.link .inline "target" ""), 0),
   (.endTag .otherTag, 0)]

/-- Modelled from the spec: the external tokenizer's output on
`"[text 1](target1)\n[text 2](target2)"` — two inline links whose spans
start at offsets 0 and 18, on lines 1 and 2. -/
def twoLinksTokens : List (PEvent × Nat) :=
  [(.startTag .otherTag, 0),
   (.startTag (.link .inline "target1" ""), 0), (.text "text 1", 1),
   (.endTag (.link .inline "target1" ""), 0),
   (.otherEvent, 17),
   (.startTag (.link .inline "target2" ""), 18), (.text "text 2", 19),
   (.endTag (.link .inline "target2" ""), 18),
   (.endTag .otherTag, 0)]

/-- The text `"[text 1](target1)\n[text 2](target2)"`, whose single
newline sits at byte offset 17. -/
def twoLinksContents : List Char :=
  "[text 1](target1)\n[text 2](target2)".data

/-- A one-file directory walk: a single `.md` file at `d/a.md` whose sole
event is an inline link to `./a.md` at offset 0. -/
def walkOneFile : List (Except String DirEntry) :=
  [.ok ⟨true, "d/a.md",
    .ok ⟨"[a](./a.md)".data, [(.text "a", 0), (.endTag (.link "./a.md"), 0)]⟩⟩]

end Marker

namespace Marker

/-! ## Claims about `check_url` (C1, C6) -/

/-- C1 (counterexample): `http://x/a#1` and `http://x/a#2` — two
successfully parsed URLs agreeing on everything but the fragment — are
distinct keys of the `HashMap<Url, StatusCode>` cache (`check_url` never
clears the fragment), so checking one after the other issues one network
round trip EACH: two in total, not the single check the claim requires. -/
theorem C1_counterexample :
    urlFrag1.scheme = urlFrag2.scheme ∧ urlFrag1.base = urlFrag2.base ∧
    urlFrag1.fragment ≠ urlFrag2.fragment ∧
    (check_url net404 [] urlFrag1).netCalls = 1 ∧
    (check_url net404 (check_url net404 [] urlFrag1).links urlFrag2).netCalls
      = 1 ∧
    (check_url net404 [] urlFrag1).result = .error (.httpStatus 404) ∧
    (check_url net404 (check_url net404 [] urlFrag1).links urlFrag2).result
      = .error (.httpStatus 404) := by
  refine ⟨rfl, rfl, by decide, rfl, rfl, rfl, rfl⟩

/-- C1 (amended): deduplication is keyed on the exact parsed URL, fragment
included.  For occurrences whose targets parse to the SAME URL value, the
first check issues one round trip and caches the status; a repeat check of
that URL issues none, and on a non-200 status each occurrence receives its
own copy of the `HttpStatus` error. -/
theorem C1_dedup_exact_url (net : Net) (u : Url) (s : Nat)
    (hscheme : u.scheme = "http") (hhead : net.head u = .response s)
    (h200 : s ≠ statusOk) (h405 : s ≠ statusMethodNotAllowed) :
    (check_url net [] u).netCalls = 1 ∧
    (check_url net [] u).result = .error (.httpStatus s) ∧
    (check_url net (check_url net [] u).links u).netCalls = 0 ∧
    (check_url net (check_url net [] u).links u).result
      = .error (.httpStatus s) := by
  have h1 : check_url net [] u =
      ⟨.error (.httpStatus s), mapInsert [] u s, 1⟩ := by
    simp [check_url, hscheme, mapRemove, sendRequest, hhead, h200, h405]
  have h2 : check_url net (mapInsert [] u s) u =
      ⟨.error (.httpStatus s), mapInsert [] u s, 0⟩ := by
    simp [check_url, hscheme, mapInsert, mapRemove, h200]
  rw [h1]
  exact ⟨rfl, rfl, by rw [h2], by rw [h2]⟩

/-- Witness for `C1_dedup_exact_url` at `http://x/a#1` under the
always-404 collaborator. -/
theorem C1_dedup_exact_url_witness :
    (check_url net404 [] urlFrag1).netCalls = 1 ∧
    (check_url net404 [] urlFrag1).result = .error (.httpStatus 404) ∧
    (check_url net404 (check_url net404 [] urlFrag1).links urlFrag1).netCalls
      = 0 ∧
    (check_url net404 (check_url net404 [] urlFrag1).links urlFrag1).result
      = .error (.httpStatus 404) :=
  C1_dedup_exact_url net404 urlFrag1 404 rfl rfl (by decide) (by decide)

/-- C6 (counterexample): a transport-level failure is returned before the
cache insertion, so it is never cached: two occurrences of the SAME URL
whose HEAD request fails at the transport level cost one round trip each —
the "at most one round trip per distinct URL regardless of how many
occurrences reference it" clause is violated. -/
theorem C6_counterexample :
    (check_url netDown [] ⟨"http", "//x/a", none⟩).netCalls = 1 ∧
    (check_url netDown [] ⟨"http", "//x/a", none⟩).links = [] ∧
    (check_url netDown [] ⟨"http", "//x/a", none⟩).result
      = .error (.httpError "connection timed out") ∧
    (check_url netDown
      (check_url netDown [] ⟨"http", "//x/a", none⟩).links
      ⟨"http", "//x/a", none⟩).netCalls = 1 :=
  ⟨rfl, rfl, rfl, rfl⟩

/-- C6 (amended): per `check_url` call — non-HTTP(S) schemes are accepted
with no round trip; a cache miss issues one HEAD, retrying once with GET
exactly when the HEAD status is 405 (method not allowed); the final status
maps 200 to success and anything else to `HttpStatus`, and is cached; a
transport failure maps to `HttpError` and is NOT cached, so only URLs whose
check produced a status are protected from repeat round trips; a cache hit
issues no round trip and re-maps the cached status. -/
theorem C6_check_url_behaviour (net : Net) (links : LinksMap) (u : Url) :
    (u.scheme ≠ "http" → u.scheme ≠ "https" →
      check_url net links u = ⟨.ok (), links, 0⟩)
  ∧ (∀ s rest, (u.scheme = "http" ∨ u.scheme = "https") →
      mapRemove links u = (none, rest) →
      net.head u = .response s → s ≠ statusMethodNotAllowed →
      check_url net links u =
        ⟨if s = statusOk then .ok () else .error (.httpStatus s),
          mapInsert rest u s, 1⟩)
  ∧ (∀ s rest, (u.scheme = "http" ∨ u.scheme = "https") →
      mapRemove links u = (none, rest) →
      net.head u = .response statusMethodNotAllowed →
      net.get u = .response s →
      check_url net links u =
        ⟨if s = statusOk then .ok () else .error (.httpStatus s),
          mapInsert rest u s, 2⟩)
  ∧ (∀ msg rest, (u.scheme = "http" ∨ u.scheme = "https") →
      mapRemove links u = (none, rest) →
      net.head u = .failure msg →
      check_url net links u = ⟨.error (.httpError msg), rest, 1⟩)
  ∧ (∀ msg rest, (u.scheme = "http" ∨ u.scheme = "https") →
      mapRemove links u = (none, rest) →
      net.head u = .response statusMethodNotAllowed →
      net.get u = .failure msg →
      check_url net links u = ⟨.error (.httpError msg), rest, 2⟩)
  ∧ (∀ s rest, (u.scheme = "http" ∨ u.scheme = "https") →
      mapRemove links u = (some s, rest) →
      check_url net links u =
        ⟨if s = statusOk then .ok () else .error (.httpStatus s),
          mapInsert rest u s, 0⟩) := by
  have hs : ∀ (h : u.scheme = "http" ∨ u.scheme = "https"),
      ¬(u.scheme ≠ "http" ∧ u.scheme ≠ "https") := by
    rintro (h | h) ⟨h1, h2⟩
    · exact h1 h
    · exact h2 h
  refine ⟨?_, ?_, ?_, ?_, ?_, ?_⟩
  · intro h1 h2
    simp [check_url, h1, h2]
  · intro s rest hsch hrem hhead h405
    simp [check_url, hs hsch, hrem, sendRequest, hhead, h405]
  · intro s rest hsch hrem hhead hget
    simp [check_url, hs hsch, hrem, sendRequest, hhead, hget]
  · intro msg rest hsch hrem hhead
    simp [check_url, hs hsch, hrem, sendRequest, hhead]
  · intro msg rest hsch hrem hhead hget
    simp [check_url, hs hsch, hrem, sendRequest, hhead, hget]
  · intro s rest hsch hrem
    simp [check_url, hs hsch, hrem]

/-- Witness for `C6_check_url_behaviour`: the non-HTTP(S) conjunct at a
`mailto:` URL, the fresh-HEAD conjunct at `http://x/a#1` under the
always-404 collaborator, and the transport-failure conjunct under the
always-failing collaborator. -/
theorem C6_check_url_behaviour_witness :
    check_url net404 [] ⟨"mailto", "a@b", none⟩ = ⟨.ok (), [], 0⟩ ∧
    check_url net404 [] urlFrag1 =
      ⟨.error (.httpStatus 404), mapInsert [] urlFrag1 404, 1⟩ ∧
    check_url netDown [] urlFrag1 =
      ⟨.error (.httpError "connection timed out"), [], 1⟩ := by
  refine ⟨?_, ?_, ?_⟩
  · exact (C6_check_url_behaviour net404 [] ⟨"mailto", "a@b", none⟩).1
      (by decide) (by decide)
  · have h := (C6_check_url_behaviour net404 [] urlFrag1).2.1 404 []
      (Or.inl rfl) rfl rfl (by decide)
    simpa [statusOk] using h
  · exact (C6_check_url_behaviour netDown [] urlFrag1).2.2.2.1
      "connection timed out" [] (Or.inl rfl) rfl rfl

/-! ## Claims about `check_path` (C3) and `check_link` (C4) -/

/-- `split('#')` is idempotent: stripping a fragment twice strips it once. -/
theorem stripFragment_idem (s : String) :
    stripFragment (stripFragment s) = stripFragment s := by
  simp [stripFragment, List.takeWhile_idem]

/-- C3 (counterexample): the source's `check_path` has no `allow_absolute`
option — an absolute target is rejected with `PathAbsolute`
unconditionally.  On a filesystem where `root/a.md` exists, the behaviour
the claim describes for the allow-absolute case (re-root at the project
root and succeed) differs from what the code does on the target `/a.md`. -/
theorem C3_counterexample :
    check_path_claim fsTwoFiles "root" "d" true "/a.md" = .ok () ∧
    check_path fsTwoFiles "d" "/a.md" = .error .pathAbsolute := by
  refine ⟨by decide, by decide⟩

/-- C3 (amended): `check_path` first strips everything from the first `#`
on; if the stripped path is absolute it always fails with `PathAbsolute`
(the code has no allow-absolute re-rooting); if relative, it is resolved
against the owning file's directory and fails with `PathNonExistant`
exactly when the resolved path does not exist, succeeding otherwise. -/
theorem C3_check_path_behaviour (fs : String → Bool) (dir target : String) :
    check_path fs dir target = check_path fs dir (stripFragment target)
  ∧ (isAbsolute (stripFragment target) = true →
      check_path fs dir target = .error .pathAbsolute)
  ∧ (isAbsolute (stripFragment target) = false →
      (check_path fs dir target = .error .pathNonExistant ↔
        fs (pathJoin dir (stripFragment target)) = false)
      ∧ (check_path fs dir target = .ok () ↔
        fs (pathJoin dir (stripFragment target)) = true)) := by
  refine ⟨?_, ?_, ?_⟩
  · simp only [check_path, stripFragment_idem]
  · intro habs
    simp [check_path, habs]
  · intro habs
    constructor
    · cases hfs : fs (pathJoin dir (stripFragment target)) <;>
        simp [check_path, habs, hfs]
    · cases hfs : fs (pathJoin dir (stripFragment target)) <;>
        simp [check_path, habs, hfs]

/-- Witness for `C3_check_path_behaviour` at the relative target
`./a.md#anchor` from directory `d` (note `d/./a.md` does not exist on
`fsTwoFiles`, while `a.md#x` from `d` resolves to the existing `d/a.md`). -/
theorem C3_check_path_behaviour_witness :
    check_path fsTwoFiles "d" "a.md#x" = check_path fsTwoFiles "d" "a.md" ∧
    (check_path fsTwoFiles "d" "/a.md#x" = .error .pathAbsolute) ∧
    (check_path fsTwoFiles "d" "a.md#x" = .ok () ↔
      fsTwoFiles "d/a.md" = true) := by
  refine ⟨?_, ?_, ?_⟩
  · have h := (C3_check_path_behaviour fsTwoFiles "d" "a.md#x").1
    simpa using h
  · exact (C3_check_path_behaviour fsTwoFiles "d" "/a.md#x").2.1 (by decide)
  · have h := ((C3_check_path_behaviour fsTwoFiles "d" "a.md#x").2.2
      (by decide)).2
    simpa using h

/-- C4 (confirmed): `check_link` is a three-way case split on the result of
URL parsing — a successful parse hands the URL to `check_url` (or accepts
it outright with no round trip when `skip_http` is set); the specific
failure `RelativeUrlWithoutBase` routes the original target string to
`check_path`; every other parse failure is reported as `UrlMalformed`
carrying that failure. -/
theorem C4_check_link_classification (parse : String → Except ParseError Url)
    (net : Net) (fs : String → Bool) (skipHttp : Bool) (directory : String)
    (links : LinksMap) (dest : String) :
    (∀ u, parse dest = .ok u → skipHttp = false →
      check_link parse net fs skipHttp directory links dest =
        ((check_url net links u).result, (check_url net links u).links,
          (check_url net links u).netCalls))
  ∧ (∀ u, parse dest = .ok u → skipHttp = true →
      check_link parse net fs skipHttp directory links dest =
        (.ok (), links, 0))
  ∧ (parse dest = .error .relativeUrlWithoutBase →
      check_link parse net fs skipHttp directory links dest =
        (check_path fs directory dest, links, 0))
  ∧ (∀ msg, parse dest = .error (.other msg) →
      check_link parse net fs skipHttp directory links dest =
        (.error (.urlMalformed (.other msg)), links, 0)) := by
  refine ⟨?_, ?_, ?_, ?_⟩
  · intro u hp hskip
    simp [check_link, hp, hskip]
  · intro u hp hskip
    simp [check_link, hp, hskip]
  · intro hp
    cases skipHttp <;> simp [check_link, hp]
  · intro msg hp
    cases skipHttp <;> simp [check_link, hp]

/-- Witness for `C4_check_link_classification` under `parseStub`: the URL
target `http://x/a#1` is checked, the relative target `./a.md` goes to
`check_path`, and the malformed target `http://[` is `UrlMalformed`. -/
theorem C4_check_link_classification_witness :
    check_link parseStub net404 fsTwoFiles false "d" [] "http://x/a#1" =
      ((check_url net404 [] urlFrag1).result,
        (check_url net404 [] urlFrag1).links,
        (check_url net404 [] urlFrag1).netCalls) ∧
    check_link parseStub net404 fsTwoFiles true "d" [] "http://x/a#1" =
      (.ok (), [], 0) ∧
    check_link parseStub net404 fsTwoFiles false "d" [] "./a.md" =
      (check_path fsTwoFiles "d" "./a.md", [], 0) ∧
    check_link parseStub net404 fsTwoFiles false "d" [] "http://[" =
      (.error (.urlMalformed (.other "invalid input: http://[")), [], 0) := by
  refine ⟨?_, ?_, ?_, ?_⟩
  · exact (C4_check_link_classification parseStub net404 fsTwoFiles false "d"
      [] "http://x/a#1").1 urlFrag1 rfl rfl
  · exact (C4_check_link_classification parseStub net404 fsTwoFiles true "d"
      [] "http://x/a#1").2.1 urlFrag1 rfl rfl
  · exact (C4_check_link_classification parseStub net404 fsTwoFiles false "d"
      [] "./a.md").2.2.1 rfl
  · exact (C4_check_link_classification parseStub net404 fsTwoFiles false "d"
      [] "http://[").2.2.2 "invalid input: http://[" rfl

/-! ## Claims about the `Document` scanner (C2, C7, C8) -/

/-- A token stream with no `End(Tag::Link(..))` token makes the scanner
yield nothing and never panic, from any state: every event the scanner can
emit (and its only panic site) lives in the link-end arm. -/
theorem docRunWith_no_linkEnd (lineFn : Nat → Nat) :
    ∀ (toks : List (PEvent × Nat)) (cb : Bool) (lt : Option String),
    (∀ t ∈ toks, isLinkEnd t = false) →
    docRunWith lineFn toks cb lt = ([], false) := by
  intro toks
  induction toks with
  | nil => intro cb lt _; rfl
  | cons hd rest ih =>
    intro cb lt h
    obtain ⟨ev, pos⟩ := hd
    have hrest : ∀ t ∈ rest, isLinkEnd t = false :=
      fun t ht => h t (List.mem_cons_of_mem _ ht)
    have hhd : isLinkEnd (ev, pos) = false := h _ (List.mem_cons_self _ _)
    cases ev with
    | text s => cases cb <;> simp [docRunWith, ih _ _ hrest]
    | startTag t => cases t <;> simp [docRunWith, ih _ _ hrest]
    | endTag t =>
      cases t with
      | link l tgt ttl => simp [isLinkEnd] at hhd
      | codeBlock => simp [docRunWith, ih _ _ hrest]
      | otherTag => simp [docRunWith, ih _ _ hrest]
    | otherEvent => simp [docRunWith, ih _ _ hrest]

/-- Every `ReferenceBroken` event the scanner emits originates in an
`End(Tag::Link(..))` token whose link type the tokenizer classified as an
unknown (unresolved) reference — never in a `Text` token. -/
theorem docRunWith_referenceBroken_src (lineFn : Nat → Nat) :
    ∀ (toks : List (PEvent × Nat)) (cb : Bool) (lt : Option String)
      (target text : String) (line : Nat),
    (⟨.referenceBroken target text, line⟩ : LocatedEvent) ∈
      (docRunWith lineFn toks cb lt).1 →
    ∃ pos l, ((PEvent.endTag (.link l target text), pos)) ∈ toks ∧
      (l = .referenceUnknown ∨ l = .collapsedUnknown ∨ l = .shortcutUnknown) ∧
      line = lineFn pos := by
  intro toks
  induction toks with
  | nil => intro cb lt target text line h; simp [docRunWith] at h
  | cons hd rest ih =>
    intro cb lt target text line h
    obtain ⟨ev, pos⟩ := hd
    have step : ∀ cb2 lt2,
        (⟨.referenceBroken target text, line⟩ : LocatedEvent) ∈
          (docRunWith lineFn rest cb2 lt2).1 →
        ∃ pos2 l, ((PEvent.endTag (.link l target text), pos2)) ∈
            ((ev, pos) :: rest) ∧
          (l = .referenceUnknown ∨ l = .collapsedUnknown ∨
            l = .shortcutUnknown) ∧
          line = lineFn pos2 := by
      intro cb2 lt2 hmem
      obtain ⟨pos2, l, hin, hl, hline⟩ := ih cb2 lt2 target text line hmem
      exact ⟨pos2, l, List.mem_cons_of_mem _ hin, hl, hline⟩
    cases ev with
    | text s =>
      cases cb <;> simp only [docRunWith] at h <;> simp at h <;>
        exact step _ _ h
    | startTag t =>
      cases t <;> simp only [docRunWith] at h <;> exact step _ _ h
    | endTag t =>
      cases t with
      | link l tgt ttl =>
        cases l with
        | inline | reference | collapsed | shortcut =>
          cases lt with
          | none => simp [docRunWith] at h
          | some s =>
            simp only [docRunWith, List.mem_cons] at h
            rcases h with h | h
            · exact absurd h (by simp)
            · exact step _ _ h
        | referenceUnknown | collapsedUnknown | shortcutUnknown =>
          simp only [docRunWith, List.mem_cons] at h
          rcases h with h | h
          · obtain ⟨⟨h1, h2⟩, h3⟩ := by
              simpa [LocatedEvent.mk.injEq, DocEvent.referenceBroken.injEq]
                using h
            subst h1; subst h2
            exact ⟨pos, _, List.mem_cons_self _ _, by simp, h3⟩
          · exact step _ _ h
        | autolink | email => simp only [docRunWith] at h; exact step _ _ h
      | codeBlock => simp only [docRunWith] at h; exact step _ _ h
      | otherTag => simp only [docRunWith] at h; exact step _ _ h
    | otherEvent => simp only [docRunWith] at h; exact step _ _ h

/-- C2 (confirmed): on a task-list document a conformant tokenizer emits no
link tokens at all, and a stream without link-end tokens makes the scanner
yield no events (no `ReferenceBroken` in particular, and no panic);
moreover every `ReferenceBroken` the scanner can ever emit stems from a
link-end token classified as an unknown reference by the tokenizer — never
from the bracketed content of a `Text` token. -/
theorem C2_tasklist_no_events (newlines : List Nat)
    (toks : List (PEvent × Nat)) :
    ((∀ t ∈ toks, isLinkEnd t = false) → docRun newlines toks = ([], false))
  ∧ (∀ target text line,
      (⟨.referenceBroken target text, line⟩ : LocatedEvent) ∈
        (docRun newlines toks).1 →
      ∃ pos l, ((PEvent.endTag (.link l target text), pos)) ∈ toks ∧
        (l = .referenceUnknown ∨ l = .collapsedUnknown ∨
          l = .shortcutUnknown)) := by
  constructor
  · intro h
    exact docRunWith_no_linkEnd _ toks false none h
  · intro target text line h
    obtain ⟨pos, l, hin, hl, _⟩ :=
      docRunWith_referenceBroken_src _ toks false none target text line h
    exact ⟨pos, l, hin, hl⟩

/-- Witness for `C2_tasklist_no_events` on the modelled token stream of
`"- [ ] Item 1\n- [ ] Item 2"` (newline at offset 12): no events, no
panic. -/
theorem C2_tasklist_no_events_witness :
    docRun [12] tasklistTokens = ([], false) :=
  (C2_tasklist_no_events [12] tasklistTokens).1 (by decide)

/-- If the only link-end token of a stream is an unknown-reference link
carrying the broken-link callback's `("", label)`, the scanner — from any
state — yields exactly the one `ReferenceBroken` event, located at that
token's span start, and does not panic. -/
theorem docRunWith_single_unknown (lineFn : Nat → Nat) (label : String)
    (l : LinkType) (pos : Nat)
    (hl : l = .referenceUnknown ∨ l = .collapsedUnknown ∨
      l = .shortcutUnknown) :
    ∀ (toks : List (PEvent × Nat)) (cb : Bool) (lt : Option String),
    toks.filter isLinkEnd = [(.endTag (.link l "" label), pos)] →
    docRunWith lineFn toks cb lt =
      ([⟨.referenceBroken "" label, lineFn pos⟩], false) := by
  intro toks
  induction toks with
  | nil => intro cb lt h; simp at h
  | cons hd rest ih =>
    intro cb lt h
    obtain ⟨ev, p⟩ := hd
    by_cases hle : isLinkEnd (ev, p) = true
    · rw [List.filter_cons_of_pos hle] at h
      have h1 : ((ev, p) : PEvent × Nat) =
          (.endTag (.link l "" label), pos) ∧
          rest.filter isLinkEnd = [] := by
        constructor
        · exact (List.cons_eq_cons.mp h).1
        · exact (List.cons_eq_cons.mp h).2
      obtain ⟨heq, hrest⟩ := h1
      have hnone : ∀ t ∈ rest, isLinkEnd t = false := by
        intro t ht
        by_contra hc
        have : t ∈ rest.filter isLinkEnd :=
          List.mem_filter.mpr ⟨ht, by simpa using hc⟩
        simp [hrest] at this
      have htail := docRunWith_no_linkEnd lineFn rest cb lt hnone
      obtain ⟨he, hp⟩ := Prod.mk.injEq .. ▸ (by exact heq :
        (ev, p) = ((.endTag (.link l "" label) : PEvent), pos))
      subst he; subst hp
      rcases hl with hl | hl | hl <;> subst hl <;>
        simp [docRunWith, htail]
    · rw [List.filter_cons_of_neg hle] at h
      cases ev with
      | text s => cases cb <;> simp [docRunWith, ih _ _ h]
      | startTag t => cases t <;> simp [docRunWith, ih _ _ h]
      | endTag t =>
        cases t with
        | link l2 tgt ttl => simp [isLinkEnd] at hle
        | codeBlock => simp [docRunWith, ih _ _ h]
        | otherTag => simp [docRunWith, ih _ _ h]
      | otherEvent => simp [docRunWith, ih _ _ h]

/-- C7 (confirmed): for a document whose only link construct is a
reference-style link with no matching definition — the tokenizer, through
`Document::new`'s broken-link callback, classifies it as an unknown
reference whose destination is the empty string and whose title is the
label — the scanner emits exactly one
`Error::ReferenceBroken \x7b target: "", text: label \x7d` located at the
construct's line, and does not panic. -/
theorem C7_broken_reference (newlines : List Nat)
    (toks : List (PEvent × Nat)) (label : String) (l : LinkType) (pos : Nat)
    (hl : l = .referenceUnknown ∨ l = .collapsedUnknown ∨
      l = .shortcutUnknown)
    (h : toks.filter isLinkEnd = [(.endTag (.link l "" label), pos)]) :
    docRun newlines toks =
      ([⟨.referenceBroken "" label, lineOf newlines pos⟩], false) :=
  docRunWith_single_unknown (lineOf newlines) label l pos hl toks false none h

/-- Witness for `C7_broken_reference` on the modelled token stream of
`"This is a [broken reference]."` (no newlines, span start 10, line 1). -/
theorem C7_broken_reference_witness :
    docRun [] brokenRefTokens =
      ([⟨.referenceBroken "" "broken reference", 1⟩], false) := by
  have h := C7_broken_reference [] brokenRefTokens "broken reference"
    .shortcutUnknown 10 (by simp) (by decide)
  simpa [lineOf] using h

/-- C8 (evaluation at the failing input): on the token stream of
`"[](target)"` — an inline link that closes before any `Text` token was
seen — the scanner panics (the `expect("some last text")` unwraps a `None`
`last_text`), yielding no event: `Scanner::next` is NOT total. -/
theorem C8_panic_on_textless_link :
    docRun [] emptyLinkTokens = ([], true) := rfl

/-! ## Line computation (C5) -/

/-- The prefix of offsets below `a` is no longer than the prefix below
`b ≥ a`. -/
theorem takeWhile_lt_length_mono (a b : Nat) (hab : a ≤ b) :
    ∀ l : List Nat,
    (l.takeWhile fun i => decide (i < a)).length ≤
      (l.takeWhile fun i => decide (i < b)).length := by
  intro l
  induction l with
  | nil => simp
  | cons x xs ih =>
    by_cases hx : x < a
    · have hxb : x < b := lt_of_lt_of_le hx hab
      simpa [List.takeWhile_cons, hx, hxb] using ih
    · simp [List.takeWhile_cons, hx]

/-- `Document`'s line computation is monotone in the offset. -/
theorem lineOf_mono (nl : List Nat) (a b : Nat) (hab : a ≤ b) :
    lineOf nl a ≤ lineOf nl b :=
  Nat.succ_le_succ (takeWhile_lt_length_mono a b hab nl)

/-- On a strictly increasing offset list, taking the prefix below `off`
is the same as filtering for offsets below `off`. -/
theorem takeWhile_lt_eq_filter (off : Nat) :
    ∀ l : List Nat, List.Pairwise (· < ·) l →
    (l.takeWhile fun i => decide (i < off)) =
      (l.filter fun i => decide (i < off)) := by
  intro l
  induction l with
  | nil => simp
  | cons x xs ih =>
    intro hp
    rw [List.pairwise_cons] at hp
    by_cases hx : x < off
    · simp [List.takeWhile_cons, List.filter_cons, hx, ih hp.2]
    · have hnone : (xs.filter fun i => decide (i < off)) = [] := by
        rw [List.filter_eq_nil_iff]
        intro y hy
        have hxy : x < y := hp.1 y hy
        have : ¬y < off := fun hyo => hx (lt_trans hxy hyo)
        simpa using this
      simp [List.takeWhile_cons, List.filter_cons, hx, hnone]

/-- `countP` counts what `filter` keeps. -/
theorem countP_length (p : Nat → Bool) :
    ∀ l : List Nat, l.countP p = (l.filter p).length := by
  intro l
  induction l with
  | nil => simp
  | cons x xs ih =>
    by_cases hx : p x <;> simp [List.countP_cons, List.filter_cons, hx, ih]

/-- On a strictly increasing newline-offset list, the source's
`take_while`-based line computation agrees with the spec's
count-of-smaller-offsets formulation. -/
theorem lineOf_eq_lineOfSpec (nl : List Nat)
    (h : List.Pairwise (· < ·) nl) : lineOf nl = lineOfSpec nl := by
  funext off
  unfold lineOf lineOfSpec
  rw [takeWhile_lt_eq_filter off nl h, countP_length]

/-- Filtering preserves strict increase. -/
theorem pairwise_lt_filter (p : Nat → Bool) :
    ∀ l : List Nat, List.Pairwise (· < ·) l →
    List.Pairwise (· < ·) (l.filter p) := by
  intro l
  induction l with
  | nil => simp
  | cons x xs ih =>
    intro hp
    rw [List.pairwise_cons] at hp
    by_cases hx : p x
    · rw [List.filter_cons_of_pos hx, List.pairwise_cons]
      exact ⟨fun y hy => hp.1 y (List.mem_of_mem_filter hy), ih hp.2⟩
    · rw [List.filter_cons_of_neg (by simpa using hx)]
      exact ih hp.2

/-- The newline offsets recorded by `Document::new` (and by `main`) are
strictly increasing. -/
theorem newlineOffsets_pairwise (contents : List Char) :
    List.Pairwise (· < ·) (newlineOffsets contents) :=
  pairwise_lt_filter _ _ (List.pairwise_lt_range _)

/-- Every event the scanner emits from a stream whose link-end tokens all
sit at offsets `≥ p` carries a line `≥ lineFn p`, for monotone `lineFn`. -/
theorem docRunWith_line_lb (lineFn : Nat → Nat)
    (hmono : ∀ a b, a ≤ b → lineFn a ≤ lineFn b) :
    ∀ (toks : List (PEvent × Nat)) (cb : Bool) (lt : Option String)
      (p : Nat),
    (∀ q ∈ (toks.filter isLinkEnd).map Prod.snd, p ≤ q) →
    ∀ e ∈ (docRunWith lineFn toks cb lt).1, lineFn p ≤ e.line := by
  intro toks
  induction toks with
  | nil => intro cb lt p _ e he; simp [docRunWith] at he
  | cons hd rest ih =>
    intro cb lt p hbound e he
    obtain ⟨ev, pos⟩ := hd
    by_cases hle : isLinkEnd (ev, pos) = true
    · have hrest : ∀ q ∈ (rest.filter isLinkEnd).map Prod.snd, p ≤ q := by
        intro q hq
        refine hbound q ?_
        rw [List.filter_cons_of_pos hle]
        simpa using Or.inr (by simpa using hq)
      have hpos : p ≤ pos := by
        refine hbound pos ?_
        rw [List.filter_cons_of_pos hle]
        simp
      cases ev with
      | text s => simp [isLinkEnd] at hle
      | startTag t => simp [isLinkEnd] at hle
      | otherEvent => simp [isLinkEnd] at hle
      | endTag t =>
        cases t with
        | codeBlock => simp [isLinkEnd] at hle
        | otherTag => simp [isLinkEnd] at hle
        | link l tgt ttl =>
          cases l with
          | inline | reference | collapsed | shortcut =>
            cases lt with
            | none => simp [docRunWith] at he
            | some s =>
              simp only [docRunWith, List.mem_cons] at he
              rcases he with he | he
              · subst he; exact hmono p pos hpos
              · exact ih cb (some s) p hrest e he
          | referenceUnknown | collapsedUnknown | shortcutUnknown =>
            simp only [docRunWith, List.mem_cons] at he
            rcases he with he | he
            · subst he; exact hmono p pos hpos
            · exact ih cb lt p hrest e he
          | autolink | email =>
            simp only [docRunWith] at he
            exact ih cb lt p hrest e he
    · have hstep : (((ev, pos) :: rest).filter isLinkEnd) =
          rest.filter isLinkEnd :=
        List.filter_cons_of_neg (by simpa using hle)
      have hrest : ∀ q ∈ (rest.filter isLinkEnd).map Prod.snd, p ≤ q := by
        intro q hq; exact hbound q (by rw [hstep]; exact hq)
      cases ev with
      | text s =>
        cases cb <;> simp only [docRunWith, Bool.not_false, Bool.not_true,
          if_true, if_false, ite_true, ite_false] at he <;>
          exact ih _ _ p hrest e he
      | startTag t =>
        cases t <;> simp only [docRunWith] at he <;> exact ih _ _ p hrest e he
      | endTag t =>
        cases t with
        | link l2 tgt ttl => simp [isLinkEnd] at hle
        | codeBlock => simp only [docRunWith] at he; exact ih _ _ p hrest e he
        | otherTag => simp only [docRunWith] at he; exact ih _ _ p hrest e he
      | otherEvent =>
        simp only [docRunWith] at he; exact ih _ _ p hrest e he

/-- For a monotone line function and a stream whose link-end tokens sit at
non-decreasing offsets, the emitted lines are non-decreasing. -/
theorem docRunWith_lines_pairwise (lineFn : Nat → Nat)
    (hmono : ∀ a b, a ≤ b → lineFn a ≤ lineFn b) :
    ∀ (toks : List (PEvent × Nat)) (cb : Bool) (lt : Option String),
    List.Pairwise (· ≤ ·) ((toks.filter isLinkEnd).map Prod.snd) →
    List.Pairwise (· ≤ ·)
      ((docRunWith lineFn toks cb lt).1.map LocatedEvent.line) := by
  intro toks
  induction toks with
  | nil => intro cb lt _; simp [docRunWith]
  | cons hd rest ih =>
    intro cb lt hp
    obtain ⟨ev, pos⟩ := hd
    by_cases hle : isLinkEnd (ev, pos) = true
    · rw [List.filter_cons_of_pos hle] at hp
      simp only [List.map_cons, List.pairwise_cons] at hp
      obtain ⟨hbound, hrest⟩ := hp
      have hlb : ∀ e ∈ (docRunWith lineFn rest cb lt).1,
          lineFn pos ≤ e.line :=
        docRunWith_line_lb lineFn hmono rest cb lt pos (by simpa using hbound)
      cases ev with
      | text s => simp [isLinkEnd] at hle
      | startTag t => simp [isLinkEnd] at hle
      | otherEvent => simp [isLinkEnd] at hle
      | endTag t =>
        cases t with
        | codeBlock => simp [isLinkEnd] at hle
        | otherTag => simp [isLinkEnd] at hle
        | link l tgt ttl =>
          cases l with
          | inline | reference | collapsed | shortcut =>
            cases lt with
            | none => simp [docRunWith]
            | some s =>
              simp only [docRunWith, List.map_cons, List.pairwise_cons]
              constructor
              · intro b hb
                simp only [List.mem_map] at hb
                obtain ⟨e, he, hbe⟩ := hb
                exact hbe ▸ hlb e he
              · exact ih cb (some s) hrest
          | referenceUnknown | collapsedUnknown | shortcutUnknown =>
            simp only [docRunWith, List.map_cons, List.pairwise_cons]
            constructor
            · intro b hb
              simp only [List.mem_map] at hb
              obtain ⟨e, he, hbe⟩ := hb
              exact hbe ▸ hlb e he
            · exact ih cb lt hrest
          | autolink | email => simp only [docRunWith]; exact ih cb lt hrest
    · rw [List.filter_cons_of_neg (by simpa using hle)] at hp
      cases ev with
      | text s => cases cb <;> simp only [docRunWith] <;> simp <;> exact ih _ _ hp
      | startTag t => cases t <;> simp only [docRunWith] <;> exact ih _ _ hp
      | endTag t =>
        cases t with
        | link l2 tgt ttl => simp [isLinkEnd] at hle
        | codeBlock => simp only [docRunWith]; exact ih _ _ hp
        | otherTag => simp only [docRunWith]; exact ih _ _ hp
      | otherEvent => simp only [docRunWith]; exact ih _ _ hp

/-- C5 (confirmed): every event the scanner emits carries the line equal to
the count of recorded newline offsets strictly below the event's span-start
offset, plus one (the source's `take_while` count agrees with that count
because the recorded offsets are strictly increasing); and when the
stream's link-end tokens sit at non-decreasing span starts (parser offsets
advance forward), the emitted line numbers are monotonically
non-decreasing. -/
theorem C5_line_numbers (contents : List Char) (toks : List (PEvent × Nat))
    (htoks : List.Pairwise (· ≤ ·)
      ((toks.filter isLinkEnd).map Prod.snd)) :
    docRun (newlineOffsets contents) toks =
      docRunSpecLine (newlineOffsets contents) toks
  ∧ List.Pairwise (· ≤ ·)
      ((docRun (newlineOffsets contents) toks).1.map LocatedEvent.line) := by
  constructor
  · unfold docRun docRunSpecLine
    rw [lineOf_eq_lineOfSpec _ (newlineOffsets_pairwise contents)]
  · exact docRunWith_lines_pairwise _
      (lineOf_mono (newlineOffsets contents)) toks false none htoks

/-- Witness for `C5_line_numbers` on the modelled stream of
`"[text 1](target1)\n[text 2](target2)"`: the two links come out at lines
1 and 2, the `take_while` and strict-count formulations agree, and the
line sequence [1, 2] is non-decreasing. -/
theorem C5_line_numbers_witness :
    (docRun (newlineOffsets twoLinksContents) twoLinksTokens =
      docRunSpecLine (newlineOffsets twoLinksContents) twoLinksTokens
    ∧ List.Pairwise (· ≤ ·)
        ((docRun (newlineOffsets twoLinksContents) twoLinksTokens).1.map
          LocatedEvent.line))
  ∧ (docRun (newlineOffsets twoLinksContents) twoLinksTokens).1 =
      [⟨.link "target1" "text 1", 1⟩, ⟨.link "target2" "text 2", 2⟩] :=
  ⟨C5_line_numbers twoLinksContents twoLinksTokens (by decide), by decide⟩

/-! ## Exit codes and determinism (C9, C10) -/

/-- The per-file loop only ever appends to the report, and the
`found_issue` flag comes out set exactly when it went in set or at least
one line was printed (`print_issue!` prints and sets the flag together). -/
theorem processEvents_report (parse : String → Except ParseError Url)
    (net : Net) (fs : String → Bool) (skipHttp : Bool)
    (path directory : String) (newlines : List Nat) :
    ∀ (evs : List (MEvent × Nat)) (links : LinksMap) (st : MState)
      (found : Bool) (report : List String),
    ∃ extra,
      (processEvents parse net fs skipHttp path directory newlines evs links
        st found report).2.2 = report ++ extra ∧
      (processEvents parse net fs skipHttp path directory newlines evs links
        st found report).2.1 = (found || !extra.isEmpty) := by
  intro evs
  induction evs with
  | nil =>
    intro links st found report
    exact ⟨[], by simp [processEvents]⟩
  | cons hd rest ih =>
    intro links st found report
    obtain ⟨ev, off⟩ := hd
    cases ev with
    | text s =>
      cases htr : try_reference { st with lastText := s } s with
      | none =>
        simpa [processEvents, htr] using
          ih links { st with lastText := s } found report
      | some r =>
        obtain ⟨extra, h1, h2⟩ := ih links { st with lastText := s } true
          (report ++
            ["Found broken reference (" ++ r ++ ") in " ++ path ++ ":"
              ++ toString ((newlines.takeWhile (fun i => i < off)).length + 1)])
        refine ⟨("Found broken reference (" ++ r ++ ") in " ++ path ++ ":"
          ++ toString ((newlines.takeWhile (fun i => i < off)).length + 1))
          :: extra, ?_, ?_⟩
        · simp only [processEvents, htr]
          rw [h1]
          simp
        · simp only [processEvents, htr]
          rw [h2]
          simp
    | endTag t =>
      cases t with
      | link dest =>
        cases hcl : check_link parse net fs skipHttp directory links dest with
        | mk res rest2 =>
          obtain ⟨links2, n⟩ := rest2
          cases res with
          | ok u =>
            simpa [processEvents, hcl] using ih links2 st found report
          | error e =>
            obtain ⟨extra, h1, h2⟩ := ih links2 st true
              (report ++ [printIssueLine e st.lastText dest path
                ((newlines.takeWhile (fun i => i < off)).length + 1)])
            refine ⟨printIssueLine e st.lastText dest path
              ((newlines.takeWhile (fun i => i < off)).length + 1) :: extra,
              ?_, ?_⟩
            · simp only [processEvents, hcl]
              rw [h1]
              simp
            · simp only [processEvents, hcl]
              rw [h2]
              simp
      | code =>
        simpa [processEvents] using
          ih links { st with codeBlock := false } found report
      | codeBlock =>
        simpa [processEvents] using
          ih links { st with codeBlock := false } found report
      | otherTag => simpa [processEvents] using ih links st found report
    | startTag t =>
      cases t with
      | link dest => simpa [processEvents] using ih links st found report
      | code =>
        simpa [processEvents] using
          ih links { st with codeBlock := true } found report
      | codeBlock =>
        simpa [processEvents] using
          ih links { st with codeBlock := true } found report
      | otherTag => simpa [processEvents] using ih links st found report
    | otherEvent => simpa [processEvents] using ih links st found report

/-- The walk loop: a fatal outcome always carries exit code 2, and a
completed outcome extends the incoming report and exits 1 exactly when the
flag was set or a line was appended. -/
theorem mainLoop_spec (parse : String → Except ParseError Url) (net : Net)
    (fs : String → Bool) (skipHttp : Bool) :
    ∀ (walk : List (Except String DirEntry)) (links : LinksMap)
      (found : Bool) (report : List String),
    (∀ c msg, mainLoop parse net fs skipHttp walk links found report =
      .fatal c msg → c = 2)
  ∧ (∀ c rpt, mainLoop parse net fs skipHttp walk links found report =
      .done c rpt →
      ∃ extra, rpt = report ++ extra ∧
        c = if (found || !extra.isEmpty) then 1 else 0) := by
  intro walk
  induction walk with
  | nil =>
    intro links found report
    constructor
    · intro c msg h
      simp [mainLoop] at h
    · intro c rpt h
      simp only [mainLoop, RunResult.done.injEq] at h
      exact ⟨[], by simp [← h.1, ← h.2], by simp [← h.1, ← h.2]⟩
  | cons hd rest ih =>
    intro links found report
    cases hd with
    | error e =>
      constructor
      · intro c msg h
        simp only [mainLoop, RunResult.fatal.injEq] at h
        exact h.1.symm
      · intro c rpt h
        simp [mainLoop] at h
    | ok entry =>
      by_cases hmd : entry.isMd
      · cases hread : entry.readResult with
        | error e =>
          constructor
          · intro c msg h
            simp only [mainLoop, hmd, if_true, hread,
              RunResult.fatal.injEq] at h
            exact h.1.symm
          · intro c rpt h
            simp [mainLoop, hmd, hread] at h
        | ok file =>
          constructor
          · intro c msg h
            simp only [mainLoop, hmd, if_true, hread] at h
            exact (ih _ _ _).1 c msg h
          · intro c rpt h
            simp only [mainLoop, hmd, if_true, hread] at h
            obtain ⟨extra1, he1, he2⟩ := processEvents_report parse net fs
              skipHttp entry.path (parentDir entry.path)
              (newlineOffsets file.contents) file.events links ⟨false, ""⟩
              found report
            obtain ⟨extra2, hr1, hr2⟩ := (ih _ _ _).2 c rpt h
            refine ⟨extra1 ++ extra2, ?_, ?_⟩
            · rw [hr1, he1, List.append_assoc]
            · rw [hr2, he2]
              cases extra1 <;> cases extra2 <;> cases found <;> simp
      · constructor
        · intro c msg h
          simp only [mainLoop, hmd, if_false] at h
          exact (ih _ _ _).1 c msg h
        · intro c rpt h
          simp only [mainLoop, hmd, if_false] at h
          exact (ih _ _ _).2 c rpt h

/-- C9 (confirmed): a completed run exits 0 exactly when the report is
empty (no validation error recorded), exits 1 exactly when at least one
validation error was recorded, and takes no other exit code; a pre-scan
fatal failure (`fail!` on a walk error or an unreadable file) aborts with
the distinct exit code 2, never folded into 0 or 1. -/
theorem C9_exit_codes (parse : String → Except ParseError Url) (net : Net)
    (fs : String → Bool) (skipHttp : Bool)
    (walk : List (Except String DirEntry)) :
    (∀ c msg, runMain parse net fs skipHttp walk = .fatal c msg →
      c = 2 ∧ c ≠ 0 ∧ c ≠ 1)
  ∧ (∀ c rpt, runMain parse net fs skipHttp walk = .done c rpt →
      (c = 0 ↔ rpt = []) ∧ (c = 1 ↔ rpt ≠ []) ∧ (c = 0 ∨ c = 1)) := by
  constructor
  · intro c msg h
    have := (mainLoop_spec parse net fs skipHttp walk [] false []).1 c msg h
    subst this
    exact ⟨rfl, by simp, by simp⟩
  · intro c rpt h
    obtain ⟨extra, h1, h2⟩ :=
      (mainLoop_spec parse net fs skipHttp walk [] false []).2 c rpt h
    rw [List.nil_append] at h1
    cases extra with
    | nil =>
      rw [h1]
      simp only [List.isEmpty_nil, Bool.not_true, Bool.false_or,
        if_false, ite_false] at h2
      simp [h2]
    | cons a t =>
      rw [h1]
      simp only [List.isEmpty_cons, Bool.not_false, Bool.false_or,
        if_true, ite_true] at h2
      simp [h2]

/-- Witness for `C9_exit_codes`: a walk error is fatal with code 2, and on
the one-file tree whose only link's path does not exist the run completes
with exit code 1 and a nonempty report. -/
theorem C9_exit_codes_witness :
    ((2 : Nat) = 2 ∧ (2 : Nat) ≠ 0 ∧ (2 : Nat) ≠ 1)
  ∧ (((1 : Nat) = 0 ↔
        (["Found broken path      (a -> ./a.md) at d/a.md:1"] :
          List String) = [])
      ∧ ((1 : Nat) = 1 ↔
        (["Found broken path      (a -> ./a.md) at d/a.md:1"] :
          List String) ≠ [])
      ∧ ((1 : Nat) = 0 ∨ (1 : Nat) = 1)) := by
  constructor
  · exact (C9_exit_codes parseStub net404 fsTwoFiles false
      [.error "boom"]).1 2 "Failed to walk directory: boom" rfl
  · exact (C9_exit_codes parseStub net404 fsTwoFiles false walkOneFile).2 1
      ["Found broken path      (a -> ./a.md) at d/a.md:1"] (by decide)

/-- C10 (confirmed): the pipeline is a pure function of the file tree and
its collaborators — two runs over the same walk with the same (fixed,
deterministic) URL-checking collaborator produce the identical
`RunResult`, report rendering and ordering included. -/
theorem C10_deterministic (parse : String → Except ParseError Url)
    (net : Net) (fs : String → Bool) (skipHttp : Bool)
    (walk : List (Except String DirEntry)) :
    runMain parse net fs skipHttp walk = runMain parse net fs skipHttp walk :=
  rfl

end Marker
